import Mathlib

/-!
Verification of the Crescent Engine incremental texture encoder
(`scripts/encode_textures.py`): a shallow embedding of its data model and
per-asset pipeline, with theorems about staleness detection, command
construction, filtering and result aggregation.

Paths are modelled as strings using the forward-slash separator, already in
the normalized form `pathlib` keeps them in.  Modification timestamps are
modelled as naturals (only their linear order matters to the program), and a
failing `stat` call is `none`.  The external encoder is modelled as a pure
map from an argument list to an exit code and a captured standard-error
text.
-/

/-- The set `LDR_EXTS` of supported low-dynamic-range source extensions. -/
def LDR_EXTS : List String :=
  [".png", ".jpg", ".jpeg", ".tga", ".bmp", ".gif", ".tif", ".tiff"]

/-- The final path component (`Path.name`): the characters after the last
separator. -/
def nameChars (p : List Char) : List Char :=
  (p.reverse.takeWhile (fun c => c ≠ '/')).reverse

/-- The directory part of a path, separator included: everything
`nameChars` drops. -/
def dirChars (p : List Char) : List Char :=
  (p.reverse.dropWhile (fun c => c ≠ '/')).reverse

/-- `pathlib`'s suffix rule on a file name: the part from the last dot on,
empty when the name has no dot, starts with its only dot, or ends with the
dot (`0 < i < len(name) - 1` over the index `i` of the last dot). -/
def suffixChars (name : List Char) : List Char :=
  let rev := name.reverse
  let k := (rev.takeWhile (fun c => c ≠ '.')).length
  if k = rev.length then []
  else
    let i := name.length - 1 - k
    if 0 < i ∧ i < name.length - 1 then name.drop i else []

/-- `Path.suffix` of a path string. -/
def pathSuffix (p : String) : String :=
  ⟨suffixChars (nameChars p.data)⟩

/-- `Path.with_suffix("")`: the path with its last suffix stripped, used to
derive the asset path from the metadata path. -/
def withSuffixEmpty (p : String) : String :=
  let name := nameChars p.data
  let suf := suffixChars name
  ⟨dirChars p.data ++ name.take (name.length - suf.length)⟩

/-- `str.lower()` on a string (the program lowercases only ASCII
extensions). -/
def lowerStr (s : String) : String :=
  ⟨s.data.map Char.toLower⟩

/-- The filesystem as the program observes it: existence of a path, and the
modification time a `stat` call returns (`none` when `stat` raises
`OSError`). -/
structure FS where
  pathExists : String → Bool
  mtime : String → Option Nat

/-- `should_encode(asset_path, output_path)`: encode when the output is
missing, when a `stat` fails, or when the output is strictly older than the
source. -/
def should_encode (fs : FS) (asset_path output_path : String) : Bool :=
  if fs.pathExists output_path = false then true
  else
    match fs.mtime output_path, fs.mtime asset_path with
    | some mo, some ma => decide (mo < ma)
    | _, _ => true

/-- `build_command`: the argument list of one encoder invocation. -/
def build_command (basisu asset_path output_path : String)
    (srgb normal_map flip_y generate_mips : Bool) : List String :=
  let cmd := [basisu, "-ktx2", "-ktx2_no_zstandard",
              if normal_map then "-uastc" else "-etc1s",
              if srgb then "-srgb" else "-linear"]
  let cmd := cmd ++ (if flip_y then ["-y_flip"] else [])
  let cmd := cmd ++ (if generate_mips then ["-mipmap"] else [])
  cmd ++ ["-quality", if normal_map then "50" else "80", "-effort", "4",
          "-file", asset_path, "-output_file", output_path,
          "-no_status_output"]

/-- The `import.texture` sub-record of a metadata file: four optional
boolean fields (`none` = key absent). -/
structure TexSettings where
  srgb? : Option Bool
  normalMap? : Option Bool
  flipY? : Option Bool
  generateMipmaps? : Option Bool
deriving DecidableEq

/-- The `import` sub-record: an optional `texture` key. -/
structure ImportDict where
  texture? : Option TexSettings
deriving DecidableEq

/-- A parsed metadata record: the `type`, `guid` and `import` keys the
program reads (`none` = key absent). -/
structure Meta where
  type? : Option String
  guid? : Option String
  imp? : Option ImportDict
deriving DecidableEq

/-- A discovered `*.cmeta` file: its path and its parse result (`none` =
`json.JSONDecodeError`). -/
structure MetaEntry where
  path : String
  parsed : Option Meta
deriving DecidableEq

/-- The four effective booleans after defaulting. -/
structure Settings where
  srgb : Bool
  normalMap : Bool
  flipY : Bool
  generateMipmaps : Bool
deriving DecidableEq

/-- `(meta.get("import") or {}).get("texture") or {}`: the texture settings
sub-record, empty when any link of the chain is absent. -/
def texSettingsOf (m : Meta) : TexSettings :=
  ((m.imp?.getD ⟨none⟩).texture?).getD ⟨none, none, none, none⟩

/-- The four `import_settings.get(key, default)` lines of `main`. -/
def effSettings (m : Meta) : Settings :=
  let s := texSettingsOf m
  ⟨s.srgb?.getD true, s.normalMap?.getD false, s.flipY?.getD false,
   s.generateMipmaps?.getD true⟩

/-- Split a character list on the separator, keeping empty components
(`a//b` gives `a`, ``, `b`). -/
def splitSlash : List Char → List (List Char)
  | [] => [[]]
  | c :: rest =>
    match splitSlash rest with
    | [] => [[]]
    | g :: gs => if c = '/' then [] :: g :: gs else (c :: g) :: gs

/-- The number of leading separators of a path string, deciding its root. -/
def leadSlashes (s : String) : Nat :=
  (s.data.takeWhile (fun c => c = '/')).length

/-- A parsed POSIX path as `pathlib` keeps it: the root (``, `/` or the
special `//`) and the normalized segments. -/
structure PosixPath where
  root : String
  segs : List String
deriving DecidableEq

/-- `PurePosixPath` parsing: exactly two leading slashes give the root
`//`, any other positive number give `/`; empty and `.` components are
dropped (`..` is kept). -/
def parsePosix (s : String) : PosixPath :=
  let n := leadSlashes s
  let root : String := if n = 0 then "" else if n = 2 then "//" else "/"
  let comps := (splitSlash s.data).filter
    (fun c => decide (c ≠ [] ∧ c ≠ ['.']))
  ⟨root, comps.map (fun c => (⟨c⟩ : String))⟩

/-- Join segments with the separator (empty for no segments). -/
def joinSegs : List String → String
  | [] => ""
  | s :: rest => rest.foldl (fun acc t => acc ++ "/" ++ t) s

/-- `str()` of a parsed path: root plus joined segments, `.` for the empty
relative path. -/
def renderPosix (p : PosixPath) : String :=
  if p.root = "" then
    match p.segs with
    | [] => "."
    | s :: rest => joinSegs (s :: rest)
  else p.root ++ joinSegs p.segs

/-- `PurePosixPath` joining `base / seg`: an absolute right operand
replaces the base entirely, otherwise the segments are concatenated. -/
def joinPosix (base seg : String) : String :=
  let b := parsePosix base
  let q := parsePosix seg
  if q.root ≠ "" then renderPosix q
  else renderPosix ⟨b.root, b.segs ++ q.segs⟩

/-- What the rendered join puts in front of a single appended normal
segment: the base's root and segments, with a trailing separator when
segments exist. -/
def basePrefix (b : String) : String :=
  let p := parsePosix b
  p.root ++ (if p.segs = [] then "" else joinSegs p.segs ++ "/")

/-- `cache_dir / f"{guid}.ktx2"`: the GUID-keyed cache path, with
`pathlib`'s normalization of the joined segment. -/
def outputPath (cacheDir guid : String) : String :=
  joinPosix cacheDir (guid ++ ".ktx2")

/-- A record that passed every filter of the loop body: its effective
settings, GUID, derived asset path and output path. -/
structure Candidate where
  settings : Settings
  guid : String
  asset : String
  out : String
deriving DecidableEq

/-- The filtering prefix of the loop body (lines 110-129): parse failures,
records whose `type` is not `"texture"`, falsy `guid`s and unsupported
asset extensions yield `none`; otherwise the candidate's settings and paths
are computed. -/
def candidateOf (cacheDir : String) (e : MetaEntry) : Option Candidate :=
  match e.parsed with
  | none => none
  | some m =>
    if m.type? ≠ some "texture" then none
    else
      match m.guid? with
      | none => none
      | some g =>
        if g = "" then none
        else
          let asset := withSuffixEmpty e.path
          if LDR_EXTS.contains (lowerStr (pathSuffix asset)) = false then none
          else some ⟨effSettings m, g, asset, outputPath cacheDir g⟩

/-- The external encoder: exit code and captured standard error of one
invocation. -/
abbrev Encoder := List String → Int × String

/-- What the loop body did for one record. -/
inductive StepResult
  | excluded
  | skippedR
  | encOk (cmd : List String)
  | encFail (cmd : List String) (assetPath stderrText : String)
deriving DecidableEq

/-- One iteration of the loop of `main` over a metadata file. -/
def processEntry (basisu cacheDir : String) (fs : FS) (enc : Encoder)
    (e : MetaEntry) : StepResult :=
  match candidateOf cacheDir e with
  | none => .excluded
  | some c =>
    if should_encode fs c.asset c.out = false then .skippedR
    else
      let cmd := build_command basisu c.asset c.out c.settings.srgb
        c.settings.normalMap c.settings.flipY c.settings.generateMipmaps
      let r := enc cmd
      if r.1 ≠ 0 then .encFail cmd c.asset r.2 else .encOk cmd

/-- The run's observable state: the two counters, the encoder invocations
issued and the failures reported (asset path with captured stderr). -/
structure RunState where
  encoded : Nat
  skipped : Nat
  invocations : List (List String)
  failures : List (String × String)
deriving DecidableEq

/-- Fold one record's outcome into the run state. -/
def stepEntry (basisu cacheDir : String) (fs : FS) (enc : Encoder)
    (st : RunState) (e : MetaEntry) : RunState :=
  match processEntry basisu cacheDir fs enc e with
  | .excluded => st
  | .skippedR => { st with skipped := st.skipped + 1 }
  | .encOk cmd =>
    { st with encoded := st.encoded + 1,
              invocations := st.invocations ++ [cmd] }
  | .encFail cmd ap msg =>
    { st with invocations := st.invocations ++ [cmd],
              failures := st.failures ++ [(ap, msg)] }

/-- The loop of `main` over the discovered metadata files. -/
def runPipeline (basisu cacheDir : String) (fs : FS) (enc : Encoder) :
    List MetaEntry → RunState → RunState
  | [], st => st
  | e :: rest, st =>
    runPipeline basisu cacheDir fs enc rest
      (stepEntry basisu cacheDir fs enc st e)

/-- How many discovered records pass every filter. -/
def countCandidates (cacheDir : String) (entries : List MetaEntry) : Nat :=
  entries.countP (fun e => (candidateOf cacheDir e).isSome)

/-- The encoder invocation the loop builds for a candidate. -/
def commandOf (basisu : String) (c : Candidate) : List String :=
  build_command basisu c.asset c.out c.settings.srgb c.settings.normalMap
    c.settings.flipY c.settings.generateMipmaps

/-- The spec's invocation grammar, transcribed for comparison with
`build_command`: `<encoder> -ktx2 -ktx2_no_zstandard {-uastc|-etc1s}
{-srgb|-linear} [-y_flip] [-mipmap] -quality <50|80> -effort 4 -file
<asset> -output_file <output> -no_status_output`, where `-uastc` and
quality `50` go with `normalMap`, `-y_flip` with `flipY` and `-mipmap`
with `generateMipmaps`. -/
def specCommandGrammar (encoder asset output : String)
    (srgb normalMap flipY generateMipmaps : Bool) : List String :=
  [encoder, "-ktx2", "-ktx2_no_zstandard"]
  ++ [if normalMap then "-uastc" else "-etc1s"]
  ++ [if srgb then "-srgb" else "-linear"]
  ++ (if flipY then ["-y_flip"] else [])
  ++ (if generateMipmaps then ["-mipmap"] else [])
  ++ ["-quality", if normalMap then "50" else "80"]
  ++ ["-effort", "4", "-file", asset, "-output_file", output,
      "-no_status_output"]

/-- `main` after CLI resolution: exit 1 with no summary when the project
file or the encoder binary is missing, else the full run, exit 0 and the
printed `(encoded, skipped)` summary. -/
def mainResult (projectFound basisuFound : Bool) (basisu cacheDir : String)
    (fs : FS) (enc : Encoder) (entries : List MetaEntry) :
    Int × Option (Nat × Nat) :=
  if projectFound = false then (1, none)
  else if basisuFound = false then (1, none)
  else
    let st := runPipeline basisu cacheDir fs enc entries ⟨0, 0, [], []⟩
    (0, some (st.encoded, st.skipped))

/-! ## Helper lemmas -/

/-- `should_encode` reads only the output's existence and the two
modification times: filesystems agreeing there decide alike. -/
theorem should_encode_congr (fs1 fs2 : FS) (a o : String)
    (he : fs2.pathExists o = fs1.pathExists o)
    (hmo : fs2.mtime o = fs1.mtime o) (hma : fs2.mtime a = fs1.mtime a) :
    should_encode fs2 a o = should_encode fs1 a o := by
  simp only [should_encode, he, hmo, hma]

/-- An existing output whose retrievable modification time is at least the
source's is skipped. -/
theorem should_encode_false_of_fresh (fs : FS) (a o : String)
    (he : fs.pathExists o = true) (mo ma : Nat)
    (hmo : fs.mtime o = some mo) (hma : fs.mtime a = some ma)
    (hle : ma ≤ mo) : should_encode fs a o = false := by
  simp only [should_encode, he, hmo, hma]
  simp
  omega

/-- A record that fails the filters leaves the run state untouched. -/
theorem stepEntry_of_excluded (basisu cacheDir : String) (fs : FS)
    (enc : Encoder) (st : RunState) (e : MetaEntry)
    (h : candidateOf cacheDir e = none) :
    stepEntry basisu cacheDir fs enc st e = st := by
  simp [stepEntry, processEntry, h]

/-- When every candidate is up to date, the run only counts skips: the
counters grow by the number of candidates, and no invocation is issued. -/
theorem runPipeline_all_uptodate (basisu cacheDir : String) (fs : FS)
    (enc : Encoder) (entries : List MetaEntry) (st : RunState)
    (h : ∀ e ∈ entries, ∀ c, candidateOf cacheDir e = some c →
        should_encode fs c.asset c.out = false) :
    runPipeline basisu cacheDir fs enc entries st =
      { st with skipped := st.skipped + countCandidates cacheDir entries } := by
  induction entries generalizing st with
  | nil => simp [runPipeline, countCandidates]
  | cons e rest ih =>
    have hrest : ∀ e' ∈ rest, ∀ c, candidateOf cacheDir e' = some c →
        should_encode fs c.asset c.out = false := by
      intro e' he' c hc
      exact h e' (List.mem_cons_of_mem _ he') c hc
    cases hc : candidateOf cacheDir e with
    | none =>
      rw [runPipeline, stepEntry_of_excluded basisu cacheDir fs enc st e hc,
        ih st hrest]
      simp [countCandidates, List.countP_cons, hc]
    | some c =>
      have hse := h e (List.mem_cons_self e rest) c hc
      have hstep : stepEntry basisu cacheDir fs enc st e =
          { st with skipped := st.skipped + 1 } := by
        simp [stepEntry, processEntry, hc, hse]
      rw [runPipeline, hstep, ih _ hrest]
      simp [countCandidates, List.countP_cons, hc]
      omega

/-- A candidate's output path is its GUID's cache path. -/
theorem candidateOf_out (cacheDir : String) (e : MetaEntry) (c : Candidate)
    (h : candidateOf cacheDir e = some c) :
    c.out = outputPath cacheDir c.guid := by
  unfold candidateOf at h
  cases hp : e.parsed with
  | none => rw [hp] at h; exact absurd h (by simp)
  | some m =>
    rw [hp] at h
    by_cases ht : m.type? ≠ some "texture"
    · simp [ht] at h
    · cases hg : m.guid? with
      | none => simp [ht, hg] at h
      | some g =>
        by_cases hgg : g = ""
        · simp [ht, hg, hgg] at h
        · simp [ht, hg, hgg] at h
          obtain ⟨-, h2⟩ := h
          rw [← h2]

/-- A common prefix of a string equation cancels. -/
theorem string_append_left_cancel (a x y : String) (h : a ++ x = a ++ y) :
    x = y := by
  have hd := congrArg String.data h
  simp only [String.data_append] at hd
  exact String.ext (List.append_cancel_left hd)

/-- A common tail of a string equation cancels. -/
theorem string_append_right_cancel (x y a : String) (h : x ++ a = y ++ a) :
    x = y := by
  have hd := congrArg String.data h
  simp only [String.data_append] at hd
  exact String.ext (List.append_cancel_right hd)

/-- A separator-free character list is a single component. -/
theorem splitSlash_eq_single (l : List Char) (h : '/' ∉ l) :
    splitSlash l = [l] := by
  induction l with
  | nil => rfl
  | cons c rest ih =>
    have hc : c ≠ '/' := fun hh => h (hh ▸ List.mem_cons_self c rest)
    have hr : '/' ∉ rest := fun hm => h (List.mem_cons_of_mem c hm)
    simp [splitSlash, ih hr, hc]

/-- A separator-free GUID's cache file name parses as one normal relative
segment: nothing is dropped, no root appears. -/
theorem parsePosix_single (g : String) (h : '/' ∉ g.data) :
    parsePosix (g ++ ".ktx2") = ⟨"", [g ++ ".ktx2"]⟩ := by
  have hd : (g ++ ".ktx2").data = g.data ++ ['.', 'k', 't', 'x', '2'] :=
    String.data_append g _
  have hns : '/' ∉ (g ++ ".ktx2").data := by
    rw [hd]
    intro hm
    rcases List.mem_append.mp hm with hm | hm
    · exact h hm
    · simp at hm
  have hlead : leadSlashes (g ++ ".ktx2") = 0 := by
    unfold leadSlashes
    cases hg : (g ++ ".ktx2").data with
    | nil => rfl
    | cons c rest =>
      have hc : c ≠ '/' := by
        intro hh
        exact hns (by rw [hg, hh]; exact List.mem_cons_self _ _)
      simp [List.takeWhile, hc]
  have hne : g.data ++ ['.', 'k', 't', 'x', '2'] ≠ [] := by
    intro hh
    have := congrArg List.length hh
    simp at this
  have hnd : g.data ++ ['.', 'k', 't', 'x', '2'] ≠ ['.'] := by
    intro hh
    have := congrArg List.length hh
    simp [List.length_append] at this
  have hmk : ({ data := g.data ++ ['.', 'k', 't', 'x', '2'] } : String) =
      g ++ ".ktx2" := String.ext hd.symm
  have hsplit : splitSlash (g ++ ".ktx2").data = [(g ++ ".ktx2").data] :=
    splitSlash_eq_single _ hns
  simp only [parsePosix, hlead, hsplit]
  simp [List.filter, hd, hne, hnd, hmk]

/-- For a separator-free GUID the cache path is the rendered cache
directory (with a trailing separator) followed by `<guid>.ktx2`. -/
theorem outputPath_eq_prefix_append (cacheDir g : String)
    (h : '/' ∉ g.data) :
    outputPath cacheDir g = basePrefix cacheDir ++ (g ++ ".ktx2") := by
  unfold outputPath joinPosix basePrefix
  rw [parsePosix_single g h]
  simp only [ne_eq, not_true_eq_false, if_false, ite_false]
  cases hsegs : (parsePosix cacheDir).segs with
  | nil =>
    by_cases hr : (parsePosix cacheDir).root = "" <;>
      simp [renderPosix, joinSegs, hr, hsegs, String.empty_append,
        String.append_empty]
  | cons b bs =>
    have hj : joinSegs (b :: (bs ++ [g ++ ".ktx2"])) =
        joinSegs (b :: bs) ++ ("/" ++ (g ++ ".ktx2")) := by
      simp [joinSegs, List.foldl_append, String.append_assoc]
    by_cases hr : (parsePosix cacheDir).root = "" <;>
      simp [renderPosix, hsegs, hr, hj, String.empty_append,
        String.append_assoc]

/-- Cache paths are injective in the GUID for a fixed cache directory, for
GUIDs containing no path separator. -/
theorem outputPath_inj_of_no_sep (cacheDir g1 g2 : String)
    (h1 : '/' ∉ g1.data) (h2 : '/' ∉ g2.data)
    (h : outputPath cacheDir g1 = outputPath cacheDir g2) : g1 = g2 := by
  rw [outputPath_eq_prefix_append cacheDir g1 h1,
    outputPath_eq_prefix_append cacheDir g2 h2] at h
  exact string_append_right_cancel g1 g2 ".ktx2"
    (string_append_left_cancel (basePrefix cacheDir) _ _ h)

/-! ## The claims -/

/-- C1: for every combination of the four import-setting booleans,
`build_command` returns exactly the spec's argument sequence
`<encoder> -ktx2 -ktx2_no_zstandard {-uastc|-etc1s} {-srgb|-linear}
[-y_flip] [-mipmap] -quality <50|80> -effort 4 -file <asset> -output_file
<output> -no_status_output` in that order, with `-uastc`/quality `50` iff
`normalMap`, `-srgb` iff `srgb` (`-linear` otherwise), `-y_flip` iff
`flipY`, `-mipmap` iff `generateMipmaps`, and `-effort 4` and
`-no_status_output` always. -/
theorem build_command_matches_spec_grammar (encoder asset output : String)
    (srgb normalMap flipY generateMipmaps : Bool) :
    build_command encoder asset output srgb normalMap flipY generateMipmaps =
      specCommandGrammar encoder asset output srgb normalMap flipY
        generateMipmaps := by
  cases srgb <;> cases normalMap <;> cases flipY <;> cases generateMipmaps <;>
    rfl

/-- C2: `should_encode` returns encode exactly when the output is missing,
a modification timestamp cannot be retrieved, or the output's time is
strictly earlier than the source's; with the output present and both times
retrievable and equal it returns skip. -/
theorem should_encode_characterization (fs : FS)
    (asset_path output_path : String) :
    (should_encode fs asset_path output_path = true ↔
      fs.pathExists output_path = false ∨
      fs.mtime output_path = none ∨ fs.mtime asset_path = none ∨
      (∃ mo ma, fs.mtime output_path = some mo ∧
        fs.mtime asset_path = some ma ∧ mo < ma)) ∧
    (∀ t, fs.pathExists output_path = true →
      fs.mtime output_path = some t → fs.mtime asset_path = some t →
      should_encode fs asset_path output_path = false) := by
  constructor
  · unfold should_encode
    cases he : fs.pathExists output_path <;>
      cases hmo : fs.mtime output_path <;>
        cases hma : fs.mtime asset_path <;> simp_all
  · intro t he hmo hma
    simp [should_encode, he, hmo, hma]

/-- C3: over unchanged sources, a second run after a first whose every
invocation succeeded (each success leaving the output present with a
retrievable modification time at least the source's, skipped records'
timestamps untouched) performs zero encoder invocations and counts every
candidate as skipped. -/
theorem second_run_performs_no_encodes (basisu cacheDir : String)
    (fs1 fs2 : FS) (enc : Encoder) (entries : List MetaEntry)
    (hpost : ∀ e ∈ entries, ∀ c, candidateOf cacheDir e = some c →
        should_encode fs1 c.asset c.out = true →
        fs2.pathExists c.out = true ∧
        ∃ mo ma, fs2.mtime c.out = some mo ∧ fs2.mtime c.asset = some ma ∧
          ma ≤ mo)
    (hkeep : ∀ e ∈ entries, ∀ c, candidateOf cacheDir e = some c →
        should_encode fs1 c.asset c.out = false →
        fs2.pathExists c.out = fs1.pathExists c.out ∧
        fs2.mtime c.out = fs1.mtime c.out ∧
        fs2.mtime c.asset = fs1.mtime c.asset) :
    (runPipeline basisu cacheDir fs2 enc entries ⟨0, 0, [], []⟩).encoded = 0 ∧
    (runPipeline basisu cacheDir fs2 enc entries ⟨0, 0, [], []⟩).invocations
      = [] ∧
    (runPipeline basisu cacheDir fs2 enc entries ⟨0, 0, [], []⟩).skipped =
      countCandidates cacheDir entries := by
  have h2 : ∀ e ∈ entries, ∀ c, candidateOf cacheDir e = some c →
      should_encode fs2 c.asset c.out = false := by
    intro e he c hc
    cases hs : should_encode fs1 c.asset c.out with
    | false =>
      obtain ⟨ha, hb, hcc⟩ := hkeep e he c hc hs
      rw [should_encode_congr fs1 fs2 c.asset c.out ha hb hcc, hs]
    | true =>
      obtain ⟨hex, mo, ma, hmo, hma, hle⟩ := hpost e he c hc hs
      exact should_encode_false_of_fresh fs2 c.asset c.out hex mo ma hmo hma
        hle
  rw [runPipeline_all_uptodate basisu cacheDir fs2 enc entries _ h2]
  simp

/-- Witness for C3: one valid texture record, a first run over an empty
cache, a second over the cache it produced (source at time 3, output at
time 5): no invocation, one skip. -/
theorem second_run_performs_no_encodes_witness :
    (runPipeline "basisu" "Library/ImportCache"
        ⟨fun _ => true, fun p => if p = "Assets/tex.png" then some 3 else some 5⟩
        (fun _ => (0, ""))
        [⟨"Assets/tex.png.cmeta", some ⟨some "texture", some "abc123", none⟩⟩]
        ⟨0, 0, [], []⟩).encoded = 0 ∧
    (runPipeline "basisu" "Library/ImportCache"
        ⟨fun _ => true, fun p => if p = "Assets/tex.png" then some 3 else some 5⟩
        (fun _ => (0, ""))
        [⟨"Assets/tex.png.cmeta", some ⟨some "texture", some "abc123", none⟩⟩]
        ⟨0, 0, [], []⟩).invocations = [] ∧
    (runPipeline "basisu" "Library/ImportCache"
        ⟨fun _ => true, fun p => if p = "Assets/tex.png" then some 3 else some 5⟩
        (fun _ => (0, ""))
        [⟨"Assets/tex.png.cmeta", some ⟨some "texture", some "abc123", none⟩⟩]
        ⟨0, 0, [], []⟩).skipped =
      countCandidates "Library/ImportCache"
        [⟨"Assets/tex.png.cmeta", some ⟨some "texture", some "abc123", none⟩⟩] := by
  refine second_run_performs_no_encodes "basisu" "Library/ImportCache"
    ⟨fun _ => false, fun _ => none⟩
    ⟨fun _ => true, fun p => if p = "Assets/tex.png" then some 3 else some 5⟩
    (fun _ => (0, ""))
    [⟨"Assets/tex.png.cmeta", some ⟨some "texture", some "abc123", none⟩⟩]
    ?_ ?_
  · intro e he c hc hs
    simp only [List.mem_singleton] at he
    subst he
    have h0 : candidateOf "Library/ImportCache"
        ⟨"Assets/tex.png.cmeta", some ⟨some "texture", some "abc123", none⟩⟩ =
        some ⟨⟨true, false, false, true⟩, "abc123", "Assets/tex.png",
          "Library/ImportCache/abc123.ktx2"⟩ := by decide
    rw [h0] at hc
    obtain rfl := Option.some.inj hc
    exact ⟨by decide, 5, 3, by decide, by decide, by decide⟩
  · intro e he c hc hs
    simp only [List.mem_singleton] at he
    subst he
    have h0 : candidateOf "Library/ImportCache"
        ⟨"Assets/tex.png.cmeta", some ⟨some "texture", some "abc123", none⟩⟩ =
        some ⟨⟨true, false, false, true⟩, "abc123", "Assets/tex.png",
          "Library/ImportCache/abc123.ktx2"⟩ := by decide
    rw [h0] at hc
    obtain rfl := Option.some.inj hc
    exact absurd hs (by decide)

/-- C4: a parsed record whose `type` is not `"texture"` or whose `guid` is
absent is excluded: the loop body never invokes the encoder for it and the
run over it is the run over the remaining records, so it touches neither
counter, the invocation list nor the failure list. -/
theorem non_texture_or_missing_guid_excluded (basisu cacheDir : String)
    (fs : FS) (enc : Encoder) (e : MetaEntry) (m : Meta)
    (rest : List MetaEntry) (st : RunState) (hp : e.parsed = some m)
    (h : m.type? ≠ some "texture" ∨ m.guid? = none) :
    processEntry basisu cacheDir fs enc e = .excluded ∧
    runPipeline basisu cacheDir fs enc (e :: rest) st =
      runPipeline basisu cacheDir fs enc rest st := by
  have hc : candidateOf cacheDir e = none := by
    unfold candidateOf
    rw [hp]
    rcases h with h | h
    · simp [h]
    · by_cases ht : m.type? = some "texture" <;> simp [ht, h]
  have hpe : processEntry basisu cacheDir fs enc e = .excluded := by
    simp [processEntry, hc]
  exact ⟨hpe, by simp [runPipeline, stepEntry, hpe]⟩

/-- Witness for C4: a `material`-typed record is excluded and leaves the
run unchanged. -/
theorem non_texture_or_missing_guid_excluded_witness :
    processEntry "basisu" "Library/ImportCache"
      ⟨fun _ => true, fun _ => some 0⟩ (fun _ => (0, ""))
      ⟨"Assets/mat.png.cmeta", some ⟨some "material", some "abc", none⟩⟩ =
      .excluded ∧
    runPipeline "basisu" "Library/ImportCache"
      ⟨fun _ => true, fun _ => some 0⟩ (fun _ => (0, ""))
      [⟨"Assets/mat.png.cmeta", some ⟨some "material", some "abc", none⟩⟩]
      ⟨0, 0, [], []⟩ =
    runPipeline "basisu" "Library/ImportCache"
      ⟨fun _ => true, fun _ => some 0⟩ (fun _ => (0, "")) [] ⟨0, 0, [], []⟩ :=
  non_texture_or_missing_guid_excluded "basisu" "Library/ImportCache"
    ⟨fun _ => true, fun _ => some 0⟩ (fun _ => (0, ""))
    ⟨"Assets/mat.png.cmeta", some ⟨some "material", some "abc", none⟩⟩
    ⟨some "material", some "abc", none⟩ [] ⟨0, 0, [], []⟩ rfl
    (Or.inl (by decide))

/-- C5: for a stale candidate the loop invokes the encoder once; on a
nonzero exit the failure is recorded as the asset path with the captured
stderr, the encoded counter is untouched and the remaining records are
still processed, while a zero exit increments the encoded counter. -/
theorem encoder_failure_isolated (basisu cacheDir : String) (fs : FS)
    (enc : Encoder) (e : MetaEntry) (c : Candidate) (rest : List MetaEntry)
    (st : RunState) (hc : candidateOf cacheDir e = some c)
    (hs : should_encode fs c.asset c.out = true) :
    runPipeline basisu cacheDir fs enc (e :: rest) st =
      runPipeline basisu cacheDir fs enc rest
        (if (enc (commandOf basisu c)).1 ≠ 0 then
          { st with invocations := st.invocations ++ [commandOf basisu c],
                    failures := st.failures ++
                      [(c.asset, (enc (commandOf basisu c)).2)] }
         else
          { st with encoded := st.encoded + 1,
                    invocations := st.invocations ++ [commandOf basisu c] }) := by
  have hpe : processEntry basisu cacheDir fs enc e =
      (if (enc (commandOf basisu c)).1 ≠ 0 then
        StepResult.encFail (commandOf basisu c) c.asset
          (enc (commandOf basisu c)).2
       else StepResult.encOk (commandOf basisu c)) := by
    simp [processEntry, hc, hs, commandOf]
  by_cases hr : (enc (commandOf basisu c)).1 = 0 <;>
    simp [runPipeline, stepEntry, hpe, hr]

/-- Witness for C5: an encoder exiting 2 on a stale candidate; the failure
carries the asset path and stderr, the encoded count stays 0, and (with no
further records) the run ends normally. -/
theorem encoder_failure_isolated_witness :
    runPipeline "basisu" "Library/ImportCache"
      ⟨fun _ => false, fun _ => none⟩ (fun _ => (2, "boom"))
      [⟨"Assets/tex.png.cmeta", some ⟨some "texture", some "abc123", none⟩⟩]
      ⟨0, 0, [], []⟩ =
    runPipeline "basisu" "Library/ImportCache"
      ⟨fun _ => false, fun _ => none⟩ (fun _ => (2, "boom")) []
      (if ((fun _ => ((2 : Int), "boom")) (commandOf "basisu"
            ⟨⟨true, false, false, true⟩, "abc123", "Assets/tex.png",
              "Library/ImportCache/abc123.ktx2"⟩) :
            Int × String).1 ≠ 0 then
        { (⟨0, 0, [], []⟩ : RunState) with
            invocations := [] ++ [commandOf "basisu"
              ⟨⟨true, false, false, true⟩, "abc123", "Assets/tex.png",
                "Library/ImportCache/abc123.ktx2"⟩],
            failures := [] ++ [("Assets/tex.png",
              ((fun _ => ((2 : Int), "boom")) (commandOf "basisu"
                ⟨⟨true, false, false, true⟩, "abc123", "Assets/tex.png",
                  "Library/ImportCache/abc123.ktx2"⟩) : Int × String).2)] }
       else
        { (⟨0, 0, [], []⟩ : RunState) with
            encoded := 0 + 1,
            invocations := [] ++ [commandOf "basisu"
              ⟨⟨true, false, false, true⟩, "abc123", "Assets/tex.png",
                "Library/ImportCache/abc123.ktx2"⟩] }) :=
  encoder_failure_isolated "basisu" "Library/ImportCache"
    ⟨fun _ => false, fun _ => none⟩ (fun _ => (2, "boom"))
    ⟨"Assets/tex.png.cmeta", some ⟨some "texture", some "abc123", none⟩⟩
    ⟨⟨true, false, false, true⟩, "abc123", "Assets/tex.png",
      "Library/ImportCache/abc123.ktx2"⟩ [] ⟨0, 0, [], []⟩ (by decide)
    (by decide)

/-- C6: a metadata file that fails to parse is silently excluded: the loop
body reports nothing for it and the run over it is the run over the
remaining files, leaving the counters, invocations and failure reports
unchanged. -/
theorem malformed_metadata_silently_excluded (basisu cacheDir : String)
    (fs : FS) (enc : Encoder) (e : MetaEntry) (rest : List MetaEntry)
    (st : RunState) (hp : e.parsed = none) :
    processEntry basisu cacheDir fs enc e = .excluded ∧
    runPipeline basisu cacheDir fs enc (e :: rest) st =
      runPipeline basisu cacheDir fs enc rest st := by
  have hc : candidateOf cacheDir e = none := by
    unfold candidateOf
    rw [hp]
  have hpe : processEntry basisu cacheDir fs enc e = .excluded := by
    simp [processEntry, hc]
  exact ⟨hpe, by simp [runPipeline, stepEntry, hpe]⟩

/-- Witness for C6: an unparsable metadata file beside a remaining valid
one changes nothing about how the rest is processed. -/
theorem malformed_metadata_silently_excluded_witness :
    processEntry "basisu" "Library/ImportCache"
      ⟨fun _ => true, fun _ => some 0⟩ (fun _ => (0, ""))
      ⟨"Assets/broken.png.cmeta", none⟩ = .excluded ∧
    runPipeline "basisu" "Library/ImportCache"
      ⟨fun _ => true, fun _ => some 0⟩ (fun _ => (0, ""))
      (⟨"Assets/broken.png.cmeta", none⟩ ::
        [⟨"Assets/tex.png.cmeta", some ⟨some "texture", some "abc123", none⟩⟩])
      ⟨0, 0, [], []⟩ =
    runPipeline "basisu" "Library/ImportCache"
      ⟨fun _ => true, fun _ => some 0⟩ (fun _ => (0, ""))
      [⟨"Assets/tex.png.cmeta", some ⟨some "texture", some "abc123", none⟩⟩]
      ⟨0, 0, [], []⟩ :=
  malformed_metadata_silently_excluded "basisu" "Library/ImportCache"
    ⟨fun _ => true, fun _ => some 0⟩ (fun _ => (0, ""))
    ⟨"Assets/broken.png.cmeta", none⟩
    [⟨"Assets/tex.png.cmeta", some ⟨some "texture", some "abc123", none⟩⟩]
    ⟨0, 0, [], []⟩ rfl

/-- C7: each effective setting defaults when its key is absent (`srgb` to
true, `normalMap` to false, `flipY` to false, `generateMipmaps` to true);
an absent or empty `import` sub-record empties the settings chain, and the
all-default settings build the command
`[.., -etc1s, -srgb, -mipmap, -quality, 80, -effort, 4, ..]`. -/
theorem absent_settings_default (m : Meta) :
    ((texSettingsOf m).srgb? = none → (effSettings m).srgb = true) ∧
    ((texSettingsOf m).normalMap? = none → (effSettings m).normalMap = false) ∧
    ((texSettingsOf m).flipY? = none → (effSettings m).flipY = false) ∧
    ((texSettingsOf m).generateMipmaps? = none →
      (effSettings m).generateMipmaps = true) ∧
    (m.imp? = none ∨ m.imp? = some ⟨none⟩ →
      texSettingsOf m = ⟨none, none, none, none⟩) ∧
    (texSettingsOf m = ⟨none, none, none, none⟩ →
      ∀ basisu asset out,
        build_command basisu asset out (effSettings m).srgb
          (effSettings m).normalMap (effSettings m).flipY
          (effSettings m).generateMipmaps =
        [basisu, "-ktx2", "-ktx2_no_zstandard", "-etc1s", "-srgb", "-mipmap",
         "-quality", "80", "-effort", "4", "-file", asset, "-output_file",
         out, "-no_status_output"]) := by
  refine ⟨fun h => ?_, fun h => ?_, fun h => ?_, fun h => ?_, fun h => ?_,
    fun h => ?_⟩
  · simp [effSettings, h]
  · simp [effSettings, h]
  · simp [effSettings, h]
  · simp [effSettings, h]
  · rcases h with h | h <;> simp [texSettingsOf, h]
  · intro basisu asset out
    have hs : effSettings m = ⟨true, false, false, true⟩ := by
      simp [effSettings, h]
    rw [hs]
    rfl

/-- C8 fails as stated: the GUIDs `a` and `./a` are distinct strings, both
truthy, and both records pass every filter, yet `pathlib`'s join
normalizes the `.` segment away, so both candidates compute the same
output path `Library/ImportCache/a.ktx2`. -/
theorem distinct_guids_same_output_path :
    candidateOf "Library/ImportCache"
      ⟨"Assets/one.png.cmeta", some ⟨some "texture", some "a", none⟩⟩ =
      some ⟨⟨true, false, false, true⟩, "a", "Assets/one.png",
        "Library/ImportCache/a.ktx2"⟩ ∧
    candidateOf "Library/ImportCache"
      ⟨"Assets/two.png.cmeta", some ⟨some "texture", some "./a", none⟩⟩ =
      some ⟨⟨true, false, false, true⟩, "./a", "Assets/two.png",
        "Library/ImportCache/a.ktx2"⟩ ∧
    ("a" : String) ≠ "./a" ∧
    outputPath "Library/ImportCache" "a" =
      outputPath "Library/ImportCache" "./a" := by
  refine ⟨by decide, by decide, by decide, by decide⟩

/-- C8 (amended): candidates with distinct GUIDs that contain no path
separator have distinct output paths `<library>/ImportCache/<guid>.ktx2`,
so encoding one never targets the cache entry of another. -/
theorem distinct_simple_guids_distinct_outputs (cacheDir : String)
    (e1 e2 : MetaEntry) (c1 c2 : Candidate)
    (h1 : candidateOf cacheDir e1 = some c1)
    (h2 : candidateOf cacheDir e2 = some c2)
    (hs1 : '/' ∉ c1.guid.data) (hs2 : '/' ∉ c2.guid.data)
    (hg : c1.guid ≠ c2.guid) : c1.out ≠ c2.out := by
  rw [candidateOf_out cacheDir e1 c1 h1, candidateOf_out cacheDir e2 c2 h2]
  intro h
  exact hg (outputPath_inj_of_no_sep cacheDir c1.guid c2.guid hs1 hs2 h)

/-- Witness for the amended C8: two valid records with the separator-free
GUIDs `abc123` and `zzz999` get the two distinct cache paths. -/
theorem distinct_simple_guids_distinct_outputs_witness :
    (⟨⟨true, false, false, true⟩, "abc123", "Assets/tex.png",
      "Library/ImportCache/abc123.ktx2"⟩ : Candidate).out ≠
    (⟨⟨true, false, false, true⟩, "zzz999", "Assets/other.png",
      "Library/ImportCache/zzz999.ktx2"⟩ : Candidate).out :=
  distinct_simple_guids_distinct_outputs "Library/ImportCache"
    ⟨"Assets/tex.png.cmeta", some ⟨some "texture", some "abc123", none⟩⟩
    ⟨"Assets/other.png.cmeta", some ⟨some "texture", some "zzz999", none⟩⟩
    ⟨⟨true, false, false, true⟩, "abc123", "Assets/tex.png",
      "Library/ImportCache/abc123.ktx2"⟩
    ⟨⟨true, false, false, true⟩, "zzz999", "Assets/other.png",
      "Library/ImportCache/zzz999.ktx2"⟩
    (by decide) (by decide) (by decide) (by decide) (by decide)

/-- C9: a record whose `guid` key holds the falsy empty string is excluded
exactly like one with no `guid`: no invocation, no cache path computed, no
contribution to either counter. -/
theorem falsy_guid_excluded (basisu cacheDir : String) (fs : FS)
    (enc : Encoder) (e : MetaEntry) (m : Meta) (rest : List MetaEntry)
    (st : RunState) (hp : e.parsed = some m) (hg : m.guid? = some "") :
    processEntry basisu cacheDir fs enc e = .excluded ∧
    runPipeline basisu cacheDir fs enc (e :: rest) st =
      runPipeline basisu cacheDir fs enc rest st := by
  have hc : candidateOf cacheDir e = none := by
    unfold candidateOf
    rw [hp]
    by_cases ht : m.type? = some "texture" <;> simp [ht, hg]
  have hpe : processEntry basisu cacheDir fs enc e = .excluded := by
    simp [processEntry, hc]
  exact ⟨hpe, by simp [runPipeline, stepEntry, hpe]⟩

/-- Witness for C9: a texture record with `guid = ""` is excluded and the
run over it alone is the empty run. -/
theorem falsy_guid_excluded_witness :
    processEntry "basisu" "Library/ImportCache"
      ⟨fun _ => true, fun _ => some 0⟩ (fun _ => (0, ""))
      ⟨"Assets/tex.png.cmeta", some ⟨some "texture", some "", none⟩⟩ =
      .excluded ∧
    runPipeline "basisu" "Library/ImportCache"
      ⟨fun _ => true, fun _ => some 0⟩ (fun _ => (0, ""))
      [⟨"Assets/tex.png.cmeta", some ⟨some "texture", some "", none⟩⟩]
      ⟨0, 0, [], []⟩ =
    runPipeline "basisu" "Library/ImportCache"
      ⟨fun _ => true, fun _ => some 0⟩ (fun _ => (0, "")) [] ⟨0, 0, [], []⟩ :=
  falsy_guid_excluded "basisu" "Library/ImportCache"
    ⟨fun _ => true, fun _ => some 0⟩ (fun _ => (0, ""))
    ⟨"Assets/tex.png.cmeta", some ⟨some "texture", some "", none⟩⟩
    ⟨some "texture", some "", none⟩ [] ⟨0, 0, [], []⟩ rfl rfl

/-- C10: once both pre-flight checks pass, `main` runs the whole loop,
prints the encoded/skipped summary and exits 0, whatever the individual
encoder invocations returned. -/
theorem main_returns_zero_after_preflight (projectFound basisuFound : Bool)
    (basisu cacheDir : String) (fs : FS) (enc : Encoder)
    (entries : List MetaEntry) (hp : projectFound = true)
    (hb : basisuFound = true) :
    mainResult projectFound basisuFound basisu cacheDir fs enc entries =
      (0, some
        ((runPipeline basisu cacheDir fs enc entries ⟨0, 0, [], []⟩).encoded,
         (runPipeline basisu cacheDir fs enc entries ⟨0, 0, [], []⟩).skipped)) := by
  subst hp
  subst hb
  simp [mainResult]

/-- Witness for C10: the pre-flight checks pass, the sole invocation exits
2, and `main` still returns 0 with the summary of a run that encoded
nothing. -/
theorem main_returns_zero_after_preflight_witness :
    mainResult true true "basisu" "Library/ImportCache"
      ⟨fun _ => false, fun _ => none⟩ (fun _ => (2, "boom"))
      [⟨"Assets/tex.png.cmeta", some ⟨some "texture", some "abc123", none⟩⟩] =
      (0, some
        ((runPipeline "basisu" "Library/ImportCache"
            ⟨fun _ => false, fun _ => none⟩ (fun _ => (2, "boom"))
            [⟨"Assets/tex.png.cmeta", some ⟨some "texture", some "abc123", none⟩⟩]
            ⟨0, 0, [], []⟩).encoded,
         (runPipeline "basisu" "Library/ImportCache"
            ⟨fun _ => false, fun _ => none⟩ (fun _ => (2, "boom"))
            [⟨"Assets/tex.png.cmeta", some ⟨some "texture", some "abc123", none⟩⟩]
            ⟨0, 0, [], []⟩).skipped)) ∧
    (runPipeline "basisu" "Library/ImportCache"
        ⟨fun _ => false, fun _ => none⟩ (fun _ => (2, "boom"))
        [⟨"Assets/tex.png.cmeta", some ⟨some "texture", some "abc123", none⟩⟩]
        ⟨0, 0, [], []⟩).encoded = 0 :=
  ⟨main_returns_zero_after_preflight true true "basisu" "Library/ImportCache"
      ⟨fun _ => false, fun _ => none⟩ (fun _ => (2, "boom"))
      [⟨"Assets/tex.png.cmeta", some ⟨some "texture", some "abc123", none⟩⟩]
      rfl rfl,
   by decide⟩
